import Mathlib

/-!
Verification of the request-execution core of the azd-rest CLI
(scope detection, token caching, retry/redirect/size-limit execution,
pagination aggregation, header redaction).

The Go source is shallowly embedded: pure helpers become Lean functions,
stateful code becomes explicit state passing, byte strings are modelled as
`List Char` (all inputs of interest are ASCII, where Go's byte indexing and
character indexing coincide), Go's `int`/`int64` become `Int`/`Nat` and
fallible operations return `Option`/`Except`.
-/

namespace AzdRest

/-! ## String helpers mirroring Go's `strings` package (ASCII model) -/

/-- `begWith seg l` is true when `seg` occurs at the start of `l`
(model of `strings.HasPrefix l seg` on byte lists). -/
def begWith : List Char → List Char → Bool
  | [], _ => true
  | _ :: _, [] => false
  | a :: s, b :: t => a == b && begWith s t

/-- `containsSeg seg l`: `seg` occurs contiguously somewhere in `l`
(model of `strings.Contains l seg`). -/
def containsSeg (seg : List Char) : List Char → Bool
  | [] => begWith seg []
  | c :: t => begWith seg (c :: t) || containsSeg seg t

/-- Model of `strings.ToLower` (ASCII). -/
def goToLower (s : String) : String := ⟨s.data.map Char.toLower⟩

/-- Model of `strings.HasPrefix s pre`. -/
def goStartsWith (s pre : String) : Bool := begWith pre.data s.data

/-- Model of `strings.HasSuffix s suf`. -/
def goEndsWith (s suf : String) : Bool := begWith suf.data.reverse s.data.reverse

/-- Model of `strings.Contains s sub`. -/
def goContains (s sub : String) : Bool := containsSeg sub.data s.data

/-- Byte length of a Go string (ASCII model: one byte per char). -/
def goLen (s : String) : Nat := s.data.length

/-- Go slice `s[:n]`. -/
def goTake (s : String) (n : Nat) : String := ⟨s.data.take n⟩

/-- Go slice `s[len(s)-n:]`. -/
def goTakeLast (s : String) (n : Nat) : String := ⟨s.data.drop (s.data.length - n)⟩

/-- Go slice `s[n:]`. -/
def goDrop (s : String) (n : Nat) : String := ⟨s.data.drop n⟩

/-- Model of `strings.TrimPrefix`. -/
def goDropLeading (s pre : String) : String :=
  if goStartsWith s pre then goDrop s (goLen pre) else s

/-- ASCII whitespace recognised by `strings.TrimSpace`. -/
def isSpaceChar (c : Char) : Bool := c == ' ' || c == '\t' || c == '\n' || c == '\r'

/-- Model of `strings.TrimSpace` (ASCII whitespace). -/
def goTrimSpace (s : String) : String :=
  ⟨((s.data.dropWhile isSpaceChar).reverse.dropWhile isSpaceChar).reverse⟩

/-! ## ScopeDetector (`DetectScope`, `IsAzureHost` in scope.go) -/

/-- A parsed URL as observed by `DetectScope`: `url.Parse` followed by
`Hostname()` (host with any port stripped) and `EscapedPath()`.  Parsing
itself is Go's `net/url`; a parse failure is represented by feeding
`DetectScope` the value `none`. -/
structure GoURL where
  hostname : String
  path : String

/-- The fixed exact-hostname table of `DetectScope`. -/
def exactScopeMatches : List (String × String) :=
  [("management.azure.com", "https://management.azure.com/.default"),
   ("graph.microsoft.com", "https://graph.microsoft.com/.default"),
   ("api.loganalytics.io", "https://api.loganalytics.io/.default"),
   ("dev.azure.com", "499b84ac-1321-427f-aa17-267ca6975798/.default")]

/-- The generic suffix table of `DetectScope`.  Go iterates this map in an
unspecified order; no hostname can match two entries (no entry is a suffix
of another), so the list order here is immaterial. -/
def suffixScopeMatches : List (String × String) :=
  [(".vault.azure.net", "https://vault.azure.net/.default"),
   (".blob.core.windows.net", "https://storage.azure.com/.default"),
   (".queue.core.windows.net", "https://storage.azure.com/.default"),
   (".table.core.windows.net", "https://storage.azure.com/.default"),
   (".file.core.windows.net", "https://storage.azure.com/.default"),
   (".dfs.core.windows.net", "https://storage.azure.com/.default"),
   (".azurecr.io", "https://containerregistry.azure.net/.default"),
   (".documents.azure.com", "https://cosmos.azure.com/.default"),
   (".azconfig.io", "https://azconfig.io/.default"),
   (".batch.azure.com", "https://batch.core.windows.net/.default"),
   (".postgres.database.azure.com", "https://ossrdbms-aad.database.windows.net/.default"),
   (".mysql.database.azure.com", "https://ossrdbms-aad.database.windows.net/.default"),
   (".mariadb.database.azure.com", "https://ossrdbms-aad.database.windows.net/.default"),
   (".database.windows.net", "https://database.windows.net/.default"),
   (".dev.azuresynapse.net", "https://dev.azuresynapse.net/.default"),
   (".azuredatalakestore.net", "https://datalake.azure.net/.default"),
   (".media.azure.net", "https://rest.media.azure.net/.default")]

/-- First suffix-table entry matching `host`. -/
def firstSuffixScope (host : String) : List (String × String) → Option String
  | [] => none
  | (suf, scope) :: rest =>
    if goEndsWith host suf then some scope else firstSuffixScope host rest

/-- Model of `DetectScope` (scope.go).  `none` input models a URL that
`url.Parse` rejected. -/
def DetectScope (u : Option GoURL) : Except String String :=
  match u with
  | none => .error "failed to parse URL"
  | some u =>
    let host := goToLower u.hostname
    if host = "" then .ok ""
    else
      match List.lookup host exactScopeMatches with
      | some scope => .ok scope
      | none =>
        if goEndsWith host ".visualstudio.com" then
          .ok "499b84ac-1321-427f-aa17-267ca6975798/.default"
        else if goEndsWith host ".kusto.windows.net" then
          .ok ("https://" ++ host ++ "/.default")
        else if goEndsWith host ".servicebus.windows.net" then
          if goContains u.path "/queue" || goContains u.path "/queues" then
            .ok "https://servicebus.azure.net/.default"
          else
            .ok "https://eventhubs.azure.net/.default"
        else
          match firstSuffixScope host suffixScopeMatches with
          | some scope => .ok scope
          | none => .ok ""

/-! ## TokenProvider (`auth.go`: `GetToken`, `getCached`, `setCached`,
`classifyAuthError`)

Time is modelled as `Int` seconds; the Go zero `time.Time` (the value for
which `IsZero` holds) is modelled by the instant `0`.  The context /
timeout plumbing of `GetToken` carries no data relevant to the claims and
is omitted; the external credential chain is passed in as the result it
would produce on this call. -/

/-- Model of `azcore.AccessToken` as consumed by auth.go. -/
structure AccessToken where
  token : String
  expiresOn : Int
  deriving DecidableEq, Repr

/-- `tokenExpirySkew = 2 * time.Minute`, in seconds. -/
def tokenExpirySkew : Int := 120

/-- The provider's in-memory per-scope cache (`map[string]azcore.AccessToken`),
modelled as an association list whose first match is the map entry. -/
abbrev TokenCache := List (String × AccessToken)

/-- Go map assignment `cache[scope] = token`: replaces any existing entry. -/
def cacheInsert (cache : TokenCache) (scope : String) (tok : AccessToken) : TokenCache :=
  (scope, tok) :: cache.filter (fun p => p.1 != scope)

/-- Model of `getCached`: only a non-empty token with a non-zero expiry
strictly later than `now + skew` is served from the cache. -/
def getCached (cache : TokenCache) (now : Int) (scope : String) : Option String :=
  match List.lookup scope cache with
  | none => none
  | some tok =>
    if tok.token = "" || tok.expiresOn = 0 then none
    else if now + tokenExpirySkew < tok.expiresOn then some tok.token
    else none

/-- Model of `setCached`: empty tokens and zero expiries are never stored. -/
def setCached (cache : TokenCache) (scope : String) (tok : AccessToken) : TokenCache :=
  if tok.token = "" || tok.expiresOn = 0 then cache
  else cacheInsert cache scope tok

/-- Model of `classifyAuthError` (substring classification of the raw
credential-chain error text; `%w` wrapping is rendered as concatenation). -/
def classifyAuthError (scope errMsg : String) : String :=
  let lower := goToLower errMsg
  if goContains lower "insufficient" || goContains lower "unauthorized" ||
      goContains lower "forbidden" || goContains lower "permission" then
    "authentication failed: insufficient permissions for scope " ++ scope ++ ": " ++ errMsg
  else if goContains lower "credential unavailable" || goContains lower "login" ||
      goContains lower "no accounts" || goContains lower "authentication required" ||
      goContains lower "configure" then
    "authentication failed: not logged in or credential unavailable. Run 'az login' or configure managed identity/environment credentials: " ++ errMsg
  else
    "authentication failed for scope " ++ scope ++ ": " ++ errMsg

/-- Result of one `GetToken` call: the returned value, the provider cache
afterwards, and how many times the external credential chain was invoked. -/
structure GetTokenResult where
  result : Except String String
  cache : TokenCache
  credCalls : Nat
  deriving Repr

/-- Model of `AzureTokenProvider.GetToken`.  `cred` is the (single) answer
the external credential chain would give if invoked on this call. -/
def getToken (cache : TokenCache) (now : Int) (scope : String)
    (cred : Except String AccessToken) : GetTokenResult :=
  let s := goTrimSpace scope
  if s = "" then ⟨.error "scope cannot be empty", cache, 0⟩
  else
    match getCached cache now s with
    | some tok => ⟨.ok tok, cache, 0⟩
    | none =>
      match cred with
      | .error e => ⟨.error (classifyAuthError s e), cache, 1⟩
      | .ok acc => ⟨.ok acc.token, setCached cache s acc, 1⟩

/-! ## ResponseFormatter redaction (`RedactSensitiveHeader` in formatter.go) -/

/-- The fixed list of additional sensitive header names. -/
def sensitiveHeaderNames : List String :=
  ["x-api-key", "x-auth-token", "cookie", "set-cookie", "x-csrf-token"]

/-- Model of `RedactSensitiveHeader` (byte slicing on ASCII values). -/
def RedactSensitiveHeader (key value : String) : String :=
  let keyLower := goToLower key
  if keyLower = "authorization" then
    if goStartsWith (goToLower value) "bearer " then
      let token := goDropLeading (goDropLeading value "Bearer ") "bearer "
      if 12 < goLen token then
        "Bearer " ++ goTake token 6 ++ "..." ++ goTakeLast token 6
      else
        "Bearer ***REDACTED***"
    else
      "***REDACTED***"
  else if sensitiveHeaderNames.contains keyLower then
    if 12 < goLen value then
      goTake value 6 ++ "..." ++ goTakeLast value 6
    else
      "***REDACTED***"
  else
    value

/-! ## HttpExecutor: option coercions and the retry loop (client.go `Execute`) -/

/-- The retry-count coercion at the top of `Execute`:
`maxRetries := opts.Retry; if maxRetries < 0 { maxRetries = 0 };
if maxRetries == 0 { maxRetries = 3 }`. -/
def effectiveRetries (retry : Int) : Int :=
  let m := if retry < 0 then 0 else retry
  if m = 0 then 3 else m

/-- The response-size coercion in `Execute`:
`maxSize := opts.MaxResponseSize; if maxSize <= 0 { maxSize = 100*1024*1024 }`.
Note this defaulted value is local to `Execute`; `opts.MaxResponseSize`
itself is left unchanged (see `handlePagination`). -/
def effectiveMaxSize (maxResponseSize : Int) : Int :=
  if maxResponseSize ≤ 0 then 100 * 1024 * 1024 else maxResponseSize

/-- What one attempt's transport produced: a response with a status code, or
a transport-level error already classified by `isRetryableError` (the
claims never distinguish the individual error-text patterns). -/
inductive TransportResult where
  | ok (status : Nat)
  | transportErr (retryable : Bool)

/-- How the retry loop ended. -/
inductive RetryOutcome where
  | response (status : Nat)
  | errNonRetryable
  | errExhausted
  deriving DecidableEq, Repr

/-- Result of the retry loop: outcome, total attempts issued, and the list
of attempt indices whose 5xx response body was closed before retrying. -/
structure RetryResult where
  outcome : RetryOutcome
  attempts : Nat
  closed : List Nat
  deriving DecidableEq, Repr

/-- `resp.StatusCode >= 500 && resp.StatusCode < 600`. -/
def is5xx (s : Nat) : Bool := 500 ≤ s && s < 600

/-- The loop `for attempt := 0; attempt <= maxRetries; attempt++` of
`Execute`, with `remaining = maxRetries - attempt` so that
`attempt < maxRetries` is `remaining > 0`.  `server i` is what the
transport returns on attempt `i`. -/
def retryLoopFrom (server : Nat → TransportResult) : Nat → Nat → RetryResult
  | attempt, 0 =>
    -- Last allowed attempt (`attempt == maxRetries`): any response breaks the
    -- loop and is returned (a 5xx included); a retryable error is the final
    -- "request failed after N retries" error.
    match server attempt with
    | .ok s => ⟨.response s, attempt + 1, []⟩
    | .transportErr retryable =>
      if retryable then ⟨.errExhausted, attempt + 1, []⟩
      else ⟨.errNonRetryable, attempt + 1, []⟩
  | attempt, r + 1 =>
    match server attempt with
    | .ok s =>
      if is5xx s then
        -- `resp.Body.Close(); continue`
        let rest := retryLoopFrom server (attempt + 1) r
        ⟨rest.outcome, rest.attempts, attempt :: rest.closed⟩
      else ⟨.response s, attempt + 1, []⟩
    | .transportErr retryable =>
      if retryable then retryLoopFrom server (attempt + 1) r
      else ⟨.errNonRetryable, attempt + 1, []⟩

/-- The retry loop of `Execute` started at attempt 0. -/
def executeRetry (server : Nat → TransportResult) (maxRetries : Nat) : RetryResult :=
  retryLoopFrom server 0 maxRetries

/-- The retry loop as `Execute` runs it from `opts.Retry`. -/
def executeRetryOpts (server : Nat → TransportResult) (retryOpt : Int) : RetryResult :=
  executeRetry server (effectiveRetries retryOpt).toNat

/-! ## Response bodies and the size limit (client.go `Execute`, lines 552-567)

A byte string is modelled by what the executor observes of it: its length
and the result of `json.Unmarshal` into `map[string]interface{}` on its
full contents.  `io.LimitReader(r, n)` delivers at most `max n 0` bytes;
`json.Unmarshal` fails on the empty input, and a strict prefix of a valid
JSON object document is not itself valid JSON, so a truncated read
parses to `none`. -/

/-- JSON values as decoded by `encoding/json` into `interface{}`
(numbers kept as integers; no claim exercises float decoding). -/
inductive Json where
  | null
  | bool (b : Bool)
  | num (n : Int)
  | str (s : String)
  | arr (xs : List Json)
  | obj (fields : List (String × Json))

/-- A byte string as observed by the executor: its byte length and its
`json.Unmarshal` result (an object's top-level fields), `none` when the
bytes are not a valid JSON object. -/
structure Bytes where
  len : Nat
  parsed : Option (List (String × Json))

/-- `io.ReadAll(io.LimitReader(body, max))`. -/
def readLimited (b : Bytes) (max : Int) : Bytes :=
  if max ≤ 0 then ⟨0, none⟩
  else if (b.len : Int) ≤ max then b
  else ⟨max.toNat, none⟩

/-- The body read in `Execute`: limit the read to the (defaulted) max size,
then reject with an explicit error when `int64(len(responseBody)) >= maxSize`. -/
def readResponseBody (b : Bytes) (maxResponseSize : Int) : Except String Bytes :=
  let maxSize := effectiveMaxSize maxResponseSize
  let responseBody := readLimited b maxSize
  if maxSize ≤ (responseBody.len : Int) then
    .error ("response body exceeds maximum size of " ++ toString maxSize ++ " bytes")
  else
    .ok responseBody

/-! ## Request-body buffering for retry replay (client.go `Execute`, lines 462-522)

`Execute` creates the request from `opts.Body` first and only afterwards,
when `opts.Body != nil && maxRetries > 0 && opts.Retry > 0`, reads that
same reader through `io.LimitReader(opts.Body, 10MB+1)` to buffer it —
consuming the reader the request already wraps.  The model tracks, per
configuration, how many bytes of the body the first attempt and each
retry attempt actually deliver. -/

/-- `const maxBodySizeForRetry = 10 * 1024 * 1024`. -/
def maxBodySizeForRetry : Nat := 10 * 1024 * 1024

/-- A request body source: its length and whether it implements `io.Seeker`. -/
structure BodySrc where
  len : Nat
  seekable : Bool
  deriving DecidableEq, Repr

/-- Bytes delivered by the request body on the first attempt and on each
retry attempt (attempts 2+). -/
structure BodyBehavior where
  firstSent : Nat
  retrySent : Nat
  deriving DecidableEq, Repr

/-- Model of the buffering block plus the per-attempt body installation of
the retry loop.  `none` result means the request had no body. -/
def bodyBehavior (body : Option BodySrc) (retryOpt : Int) : Option BodyBehavior :=
  match body with
  | none => none
  | some b =>
    if 0 < effectiveRetries retryOpt ∧ 0 < retryOpt then
      if b.len ≤ maxBodySizeForRetry then
        -- Buffered into `bodyBytes`; the buffering read consumed the reader
        -- that `req.Body` wraps, so attempt 1 delivers nothing, while every
        -- retry resets the `bytes.Reader` and delivers the full body.
        some ⟨0, b.len⟩
      else if b.seekable then
        -- Too large to buffer: `Seek(0)` restores the reader before attempt 1
        -- and the retry branch seeks it back to the start each time.
        some ⟨b.len, b.len⟩
      else
        -- Too large and not seekable: the buffering read consumed the first
        -- 10MB+1 bytes; attempt 1 sends the remainder, retries send nothing.
        some ⟨b.len - (maxBodySizeForRetry + 1), 0⟩
    else
      -- No buffering.  Attempt 1 sends the untouched body; on a retry the
      -- loop still seeks a seekable reader back to the start (lines 509-518),
      -- otherwise the consumed reader delivers nothing.
      some ⟨b.len, if b.seekable then b.len else 0⟩

/-! ## Redirect policy (client.go `Execute`, lines 392-412)

The `CheckRedirect` closure is installed into a `net/http` client; the
client's documented redirect loop is modelled here: after response `i`
(a redirect), `CheckRedirect` is consulted with `via` holding the `i+1`
requests issued so far.  `http.ErrUseLastResponse` makes `Do` return the
redirect response itself with no error. -/

/-- `maxRedirects := opts.MaxRedirects; if maxRedirects == 0 { maxRedirects = 10 }`. -/
def effectiveMaxRedirects (maxRedirects : Int) : Int :=
  if maxRedirects = 0 then 10 else maxRedirects

/-- What the server answers to request number `i` of a redirect chain. -/
inductive RedirectStep where
  | redirect (status : Nat)
  | final (status : Nat)

/-- Result of `client.Do`: a response, or the error produced by the
`CheckRedirect` closure. -/
inductive RedirectOutcome where
  | resp (status : Nat)
  | checkErr (msg : String)
  deriving DecidableEq, Repr

/-- The `net/http` redirect loop running `Execute`'s `CheckRedirect`.
Returns the outcome and the number of requests issued.  `fuel` only bounds
the recursion; `clientDo` supplies enough for the check to fire first. -/
def clientDoAux (server : Nat → RedirectStep) (follow : Bool) (maxR : Int) :
    Nat → Nat → RedirectOutcome × Nat
  | i, fuel =>
    match server i with
    | .final s => (.resp s, i + 1)
    | .redirect s =>
      if follow = false then (.resp s, i + 1)
      else if maxR ≤ (i : Int) + 1 then
        (.checkErr ("stopped after " ++ toString maxR ++ " redirects"), i + 1)
      else
        match fuel with
        | 0 => (.checkErr "", i + 1)
        | fuel + 1 => clientDoAux server follow maxR (i + 1) fuel

/-- `client.Do` with `Execute`'s redirect policy. -/
def clientDo (server : Nat → RedirectStep) (follow : Bool) (maxR : Int) :
    RedirectOutcome × Nat :=
  clientDoAux server follow maxR 0 (maxR.toNat + 1)

/-! ## PaginationAggregator (client.go `handlePagination`, lines 732-882)

The page-fetching `client.Do` is an oracle from the resolved URL to the
page it returns; `baseURL.ResolveReference(nextURLParsed)` is an abstract
resolver parameter (`url.Parse` failures on already-issued URLs do not
arise for the inputs the claims quantify over).  The `Link` response
header is carried as its already-extracted `rel="next"` target, modelling
`parseLinkHeader(resp.Header.Get("Link"))`. -/

/-- A fetched page: its body bytes and the `rel="next"` target of its
`Link` header, if any. -/
structure PageResponse where
  body : Bytes
  linkNext : Option String

/-- The slice of `RequestOptions` that `handlePagination` consults.
`tokenResult` models what `opts.TokenProvider.GetToken(ctx, opts.Scope)`
returns on each per-page call (`none` = error). -/
structure PagOpts where
  url : String
  skipAuth : Bool
  scope : String
  hasTokenProvider : Bool
  tokenResult : Option String
  maxResponseSize : Int

/-- Field lookup used by `extractNextLinkFromBody`: the value must
type-assert to a non-empty string. -/
def lookupNonEmptyStr (data : List (String × Json)) (key : String) : Option String :=
  match List.lookup key data with
  | some (Json.str s) => if s = "" then none else some s
  | _ => none

/-- Model of `extractNextLinkFromBody` on already-unmarshalled fields:
`nextLink`, then `@odata.nextLink`, then `@odata.next`. -/
def extractNextLinkFromData (data : List (String × Json)) : Option String :=
  match lookupNonEmptyStr data "nextLink" with
  | some s => some s
  | none =>
    match lookupNonEmptyStr data "@odata.nextLink" with
    | some s => some s
    | none => lookupNonEmptyStr data "@odata.next"

/-- The next-link of a page: body fields first, then the `Link` header;
`""` means "no next page" (matching the `nextURL` string variable). -/
def nextURLOf (data : List (String × Json)) (linkNext : Option String) : String :=
  match extractNextLinkFromData data with
  | some n => n
  | none =>
    match linkNext with
    | some n => n
    | none => ""

/-- `value` array of a page, if the field is present and is an array. -/
def pageValueArray (data : List (String × Json)) : Option (List Json) :=
  match List.lookup "value" data with
  | some (Json.arr items) => some items
  | _ => none

/-- Does the per-page auth block break the loop?  It breaks exactly when
auth is active, a provider exists and its `GetToken` errors. -/
def pagAuthBreaks (opts : PagOpts) : Bool :=
  !opts.skipAuth && opts.scope != "" && opts.hasTokenProvider && opts.tokenResult == none

/-- The `for hasMore && nextURL != "" && pageCount < maxPages` loop of
`handlePagination`, accumulating `allResults`.  `fuel` is
`maxPages - pageCount`.  Every `break` of the source returns the
accumulator collected so far. -/
def pagLoop (doReq : String → Option PageResponse) (resolve : String → String → String)
    (opts : PagOpts) : Nat → String → List Json → List Json
  | 0, _, acc => acc
  | fuel + 1, nextURL, acc =>
    if nextURL = "" then acc
    else if pagAuthBreaks opts then acc
    else
      match doReq (resolve opts.url nextURL) with
      | none => acc
      | some page =>
        let body := readLimited page.body opts.maxResponseSize
        match body.parsed with
        | none => acc
        | some pageData =>
          let acc' :=
            match pageValueArray pageData with
            | some items => acc ++ items
            | none => acc
          pagLoop doReq resolve opts fuel (nextURLOf pageData page.linkNext) acc'

/-- `maxPages := 1000`. -/
def maxPages : Nat := 1000

/-- The combined body `handlePagination` synthesizes: `value` holds the
accumulated items and every other first-page top-level field except the
three next-link keys is carried over (the explicit `delete` calls on the
combined map are no-ops in this representation). -/
def combineResults (firstData : List (String × Json)) (allResults : List Json) :
    List (String × Json) :=
  ("value", Json.arr allResults) ::
    firstData.filter (fun p =>
      p.1 != "value" && p.1 != "nextLink" && p.1 != "@odata.nextLink" && p.1 != "@odata.next")

/-- What `handlePagination` hands back to `Execute`: the original body
unchanged, or a synthesized combined body (`json.Marshal` of a string-keyed
map does not fail, so that error branch is unreachable). -/
inductive PagResult where
  | original (b : Bytes)
  | combined (fields : List (String × Json))

/-- Model of `handlePagination`. -/
def handlePagination (doReq : String → Option PageResponse)
    (resolve : String → String → String) (opts : PagOpts)
    (firstResponse : PageResponse) : PagResult :=
  match firstResponse.body.parsed with
  | none => .original firstResponse.body
  | some firstData =>
    let acc0 :=
      match pageValueArray firstData with
      | some items => items
      | none => [Json.obj firstData]
    let next0 := nextURLOf firstData firstResponse.linkNext
    let allResults := pagLoop doReq resolve opts maxPages next0 acc0
    if allResults.isEmpty then .original firstResponse.body
    else .combined (combineResults firstData allResults)

/-! ## Helper lemmas -/

theorem begWith_length_le : ∀ {a b : List Char}, begWith a b = true → a.length ≤ b.length := by
  intro a
  induction a with
  | nil => intro b _; exact Nat.zero_le _
  | cons x s ih =>
    intro b h
    cases b with
    | nil => simp [begWith] at h
    | cons y t =>
      simp only [begWith, Bool.and_eq_true] at h
      simpa using ih h.2

theorem begWith_mono : ∀ {a b c : List Char}, begWith a c = true → begWith b c = true →
    a.length ≤ b.length → begWith a b = true := by
  intro a
  induction a with
  | nil => intro b c _ _ _; simp [begWith]
  | cons x s ih =>
    intro b c hac hbc hlen
    cases c with
    | nil => simp [begWith] at hac
    | cons z c' =>
      cases b with
      | nil => simp at hlen
      | cons y t =>
        simp only [begWith, Bool.and_eq_true, beq_iff_eq] at hac hbc ⊢
        refine ⟨hac.1.trans hbc.1.symm, ih hac.2 hbc.2 (by simpa using hlen)⟩

theorem begWith_append_self : ∀ (a b : List Char), begWith a (a ++ b) = true := by
  intro a b
  induction a with
  | nil => simp [begWith]
  | cons x s ih => simp [begWith, ih]

/-- If `host` ends with `s2` and `s1` is no longer than `s2` but is not a
suffix of `s2`, then `host` does not end with `s1`. -/
theorem goEndsWith_excl (host s1 s2 : String) (h2 : goEndsWith host s2 = true)
    (hlen : s1.data.length ≤ s2.data.length)
    (hne : begWith s1.data.reverse s2.data.reverse = false) :
    goEndsWith host s1 = false := by
  cases h1 : goEndsWith host s1 with
  | false => rfl
  | true =>
    exact absurd (begWith_mono (c := host.data.reverse) h1 h2 (by simpa using hlen)) (by simp [hne])

theorem mem_of_lookup_eq_some {v : AccessToken} (k : String) :
    ∀ (l : TokenCache), List.lookup k l = some v → (k, v) ∈ l := by
  intro l
  induction l with
  | nil => intro h; simp [List.lookup] at h
  | cons p t ih =>
    obtain ⟨k', v'⟩ := p
    intro h
    cases hk : (k == k') with
    | true =>
      have hkk : k = k' := eq_of_beq hk
      simp only [List.lookup, hk, Option.some.injEq] at h
      subst hkk
      subst h
      exact List.mem_cons_self _ _
    | false =>
      simp only [List.lookup, hk] at h
      exact List.mem_cons_of_mem _ (ih h)

theorem lookup_filter_key_none (k : String) (p : String × Json → Bool)
    (hk : ∀ v, p (k, v) = false) :
    ∀ (l : List (String × Json)), List.lookup k (l.filter p) = none := by
  intro l
  induction l with
  | nil => simp
  | cons q t ih =>
    obtain ⟨k1, v1⟩ := q
    by_cases hq : p (k1, v1) = true
    · rw [List.filter_cons_of_pos hq]
      cases hkq : (k == k1) with
      | true =>
        have hkk : k = k1 := eq_of_beq hkq
        subst hkk
        rw [hk v1] at hq
        exact absurd hq (by decide)
      | false =>
        simp only [List.lookup, hkq]
        exact ih
    · rw [List.filter_cons_of_neg hq]
      exact ih

/-! ## C8: Service-Bus / Event-Hubs disambiguation -/

/-- C8: for every URL whose lower-cased hostname (port already stripped by
`Hostname()`) ends in `.servicebus.windows.net` and is not an entry of the
exact-hostname table, `DetectScope` returns the Service-Bus scope
`https://servicebus.azure.net/.default` exactly when the path contains
`/queue` or `/queues`, and the Event-Hubs scope
`https://eventhubs.azure.net/.default` otherwise, with no error. -/
theorem c8_servicebus_disambiguation (u : GoURL)
    (hsuf : goEndsWith (goToLower u.hostname) ".servicebus.windows.net" = true)
    (hex : List.lookup (goToLower u.hostname) exactScopeMatches = none) :
    DetectScope (some u) =
      .ok (if goContains u.path "/queue" || goContains u.path "/queues" then
            "https://servicebus.azure.net/.default"
          else
            "https://eventhubs.azure.net/.default") := by
  have hvs : goEndsWith (goToLower u.hostname) ".visualstudio.com" = false :=
    goEndsWith_excl _ _ _ hsuf (by decide) (by decide)
  have hku : goEndsWith (goToLower u.hostname) ".kusto.windows.net" = false :=
    goEndsWith_excl _ _ _ hsuf (by decide) (by decide)
  have hne : ¬(goToLower u.hostname = "") := by
    intro h
    rw [h] at hsuf
    exact absurd hsuf (by decide)
  simp only [DetectScope, hex, hvs, hku, hsuf, hne, if_false, if_true, Bool.false_eq_true,
    if_neg hne]
  split <;> rfl

/-- Witness for C8 at `sb.servicebus.windows.net` with a `/queues/q1` path. -/
theorem c8_servicebus_disambiguation_witness :
    DetectScope (some ⟨"sb.servicebus.windows.net", "/queues/q1"⟩) =
      .ok (if goContains "/queues/q1" "/queue" || goContains "/queues/q1" "/queues" then
            "https://servicebus.azure.net/.default"
          else
            "https://eventhubs.azure.net/.default") :=
  c8_servicebus_disambiguation ⟨"sb.servicebus.windows.net", "/queues/q1"⟩
    (by decide) (by decide)

/-! ## C10: retry-count coercion -/

theorem retryLoop_attempts_ge (server : Nat → TransportResult) :
    ∀ (r a : Nat), a + 1 ≤ (retryLoopFrom server a r).attempts := by
  intro r
  induction r with
  | zero =>
    intro a
    cases hs : server a with
    | ok s => simp [retryLoopFrom, hs]
    | transportErr retryable => cases retryable <;> simp [retryLoopFrom, hs]
  | succ r ih =>
    intro a
    cases hs : server a with
    | ok s =>
      by_cases h5 : is5xx s
      · simpa [retryLoopFrom, hs, h5] using Nat.le_trans (by omega) (ih (a + 1))
      · simp [retryLoopFrom, hs, h5]
    | transportErr retryable =>
      cases retryable with
      | false => simp [retryLoopFrom, hs]
      | true =>
        simpa [retryLoopFrom, hs] using Nat.le_trans (by omega) (ih (a + 1))

/-- C10: `Execute` coerces every `opts.Retry ≤ 0` (including an explicit 0)
to the default of 3 retries; `effectiveRetries` is never 0, so no
`RequestOptions` value yields a zero-retry configuration, and any request
whose attempts keep failing retryably is always attempted at least twice. -/
theorem c10_retry_coercion :
    (∀ r : Int, r ≤ 0 → effectiveRetries r = 3)
    ∧ (∀ r : Int, effectiveRetries r ≠ 0 ∧ 1 ≤ effectiveRetries r)
    ∧ (∀ (server : Nat → TransportResult) (r : Int),
        (∀ i, server i = .transportErr true) →
        2 ≤ (executeRetryOpts server r).attempts) := by
  refine ⟨fun r hr => ?_, fun r => ?_, fun server r hs => ?_⟩
  · simp only [effectiveRetries]
    by_cases h : r < 0 <;> simp [h] <;> omega
  · simp only [effectiveRetries]
    by_cases h : r < 0
    · simp [h]
    · by_cases h0 : r = 0 <;> simp [h, h0] <;> omega
  · have h1 : 1 ≤ (effectiveRetries r).toNat := by
      have := (by
        simp only [effectiveRetries]
        by_cases h : r < 0
        · simp [h]
        · by_cases h0 : r = 0 <;> simp [h, h0] <;> omega : 1 ≤ effectiveRetries r)
      omega
    obtain ⟨m, hm⟩ : ∃ m, (effectiveRetries r).toNat = m + 1 :=
      ⟨(effectiveRetries r).toNat - 1, by omega⟩
    unfold executeRetryOpts executeRetry
    rw [hm]
    simp only [retryLoopFrom, hs 0, if_pos]
    simpa using retryLoop_attempts_ge server m 1

/-- Witness for C10: `Retry = -5` and `Retry = 0` both become 3 retries,
and an always-failing transport is attempted at least twice. -/
theorem c10_retry_coercion_witness :
    effectiveRetries (-5) = 3 ∧ effectiveRetries 0 = 3 ∧
      2 ≤ (executeRetryOpts (fun _ => .transportErr true) 0).attempts :=
  ⟨c10_retry_coercion.1 (-5) (by omega), c10_retry_coercion.1 0 (by omega),
    c10_retry_coercion.2.2 (fun _ => .transportErr true) 0 (fun _ => rfl)⟩

/-! ## C5: response-size bound -/

/-- C5: `Execute` reads every response body through a reader capped at the
configured max size (100MB when `MaxResponseSize` is unset or
non-positive); a body strictly below the cap is returned intact, and a body
reaching the cap yields the explicit "exceeds maximum size" error naming
the limit — never a silently truncated body. -/
theorem c5_response_size (b : Bytes) (m : Int) :
    (m ≤ 0 → effectiveMaxSize m = 104857600)
    ∧ ((b.len : Int) < effectiveMaxSize m → readResponseBody b m = .ok b)
    ∧ (effectiveMaxSize m ≤ (b.len : Int) →
        readResponseBody b m =
          .error ("response body exceeds maximum size of " ++
            toString (effectiveMaxSize m) ++ " bytes")) := by
  have hpos : 0 < effectiveMaxSize m := by
    simp only [effectiveMaxSize]
    by_cases h : m ≤ 0 <;> simp [h] <;> omega
  refine ⟨fun hm => by simp [effectiveMaxSize, hm], fun hlt => ?_, fun hge => ?_⟩
  · have hr : readLimited b (effectiveMaxSize m) = b := by
      simp only [readLimited]
      rw [if_neg (by omega), if_pos (by omega)]
    simp only [readResponseBody, hr]
    rw [if_neg (by omega)]
  · by_cases hfits : (b.len : Int) ≤ effectiveMaxSize m
    · have hr : readLimited b (effectiveMaxSize m) = b := by
        simp only [readLimited]
        rw [if_neg (by omega), if_pos hfits]
      simp only [readResponseBody, hr]
      rw [if_pos hge]
    · have hr : readLimited b (effectiveMaxSize m) = ⟨(effectiveMaxSize m).toNat, none⟩ := by
        simp only [readLimited]
        rw [if_neg (by omega), if_neg hfits]
      simp only [readResponseBody, hr]
      rw [if_pos (show effectiveMaxSize m ≤ (((effectiveMaxSize m).toNat : Nat) : Int) by omega)]

/-- Witness for C5: with the cap left unset a 5-byte body passes through
intact, and a body of exactly the default cap is rejected with the
explicit error. -/
theorem c5_response_size_witness :
    readResponseBody ⟨5, none⟩ 0 = .ok ⟨5, none⟩
    ∧ readResponseBody ⟨104857600, none⟩ 0 =
        .error ("response body exceeds maximum size of " ++ toString (effectiveMaxSize 0) ++ " bytes") :=
  ⟨(c5_response_size ⟨5, none⟩ 0).2.1 (by decide),
   (c5_response_size ⟨104857600, none⟩ 0).2.2 (by decide)⟩

/-! ## C1: retry decision on response status -/

theorem retryLoop_stops (server : Nat → TransportResult) :
    ∀ (k a r s : Nat), k ≤ r →
    (∀ i, i < k → ∃ t, server (a + i) = .ok t ∧ is5xx t = true) →
    server (a + k) = .ok s → is5xx s = false →
    retryLoopFrom server a r = ⟨.response s, a + k + 1, List.range' a k⟩ := by
  intro k
  induction k with
  | zero =>
    intro a r s _ _ hs hns
    rw [Nat.add_zero] at hs
    cases r with
    | zero => simp [retryLoopFrom, hs]
    | succ r => simp [retryLoopFrom, hs, hns]
  | succ k ih =>
    intro a r s hkr h5 hs hns
    obtain ⟨t0, ht0, h5t0⟩ := h5 0 (Nat.succ_pos k)
    rw [Nat.add_zero] at ht0
    cases r with
    | zero => omega
    | succ r =>
      have hrest := ih (a + 1) r s (by omega)
        (fun i hi => by
          have h := h5 (i + 1) (by omega)
          rwa [show a + (i + 1) = a + 1 + i by omega] at h)
        (by rwa [show a + 1 + k = a + (k + 1) by omega]) hns
      simp only [retryLoopFrom, ht0, h5t0, if_true, hrest]
      simp only [RetryResult.mk.injEq]
      refine ⟨trivial, by omega, ?_⟩
      simp [List.range']

theorem retryLoop_all5xx (server : Nat → TransportResult) :
    ∀ (r a s : Nat),
    (∀ i, i ≤ r → ∃ t, server (a + i) = .ok t ∧ is5xx t = true) →
    server (a + r) = .ok s →
    retryLoopFrom server a r = ⟨.response s, a + r + 1, List.range' a r⟩ := by
  intro r
  induction r with
  | zero =>
    intro a s _ hs
    rw [Nat.add_zero] at hs
    simp [retryLoopFrom, hs]
  | succ r ih =>
    intro a s h5 hs
    obtain ⟨t0, ht0, h5t0⟩ := h5 0 (Nat.zero_le _)
    rw [Nat.add_zero] at ht0
    have hrest := ih (a + 1) s
      (fun i hi => by
        have h := h5 (i + 1) (by omega)
        rwa [show a + (i + 1) = a + 1 + i by omega] at h)
      (by rwa [show a + 1 + r = a + (r + 1) by omega])
    simp only [retryLoopFrom, ht0, h5t0, if_true, hrest]
    simp only [RetryResult.mk.injEq]
    refine ⟨trivial, by omega, ?_⟩
    simp [List.range']

/-- C1: after a transport-successful attempt, the retry decision depends
only on the status code.  Clause 1: the first non-5xx status (any 4xx
included) is accepted immediately, after closing the bodies of the
preceding 5xx responses.  Clause 2: when every attempt up to `maxRetries`
is a 5xx, the loop stops after `maxRetries + 1` attempts and returns the
last 5xx as a normal (non-error) response.  Clauses 3-4: under the default
retry configuration, a server always answering 400 causes exactly 1
attempt, and a server answering 500, 500 then 200 causes exactly 3
attempts ending in the 200 response. -/
theorem c1_retry_decision :
    (∀ (server : Nat → TransportResult) (maxRetries k s : Nat), k ≤ maxRetries →
      (∀ i, i < k → ∃ t, server i = .ok t ∧ is5xx t = true) →
      server k = .ok s → is5xx s = false →
      executeRetry server maxRetries = ⟨.response s, k + 1, List.range' 0 k⟩)
    ∧ (∀ (server : Nat → TransportResult) (maxRetries s : Nat),
      (∀ i, i ≤ maxRetries → ∃ t, server i = .ok t ∧ is5xx t = true) →
      server maxRetries = .ok s →
      executeRetry server maxRetries =
        ⟨.response s, maxRetries + 1, List.range' 0 maxRetries⟩)
    ∧ executeRetryOpts (fun _ => .ok 400) 0 = ⟨.response 400, 1, []⟩
    ∧ executeRetryOpts (fun i => if i < 2 then .ok 500 else .ok 200) 0 =
        ⟨.response 200, 3, [0, 1]⟩ := by
  refine ⟨fun server maxR k s hk h5 hs hns => ?_, fun server maxR s h5 hs => ?_,
    by decide, by decide⟩
  · have h := retryLoop_stops server k 0 maxR s hk
      (fun i hi => by simpa using h5 i hi) (by simpa using hs) hns
    simpa [executeRetry] using h
  · have h := retryLoop_all5xx server maxR 0 s
      (fun i hi => by simpa using h5 i hi) (by simpa using hs)
    simpa [executeRetry] using h

/-- Witness for C1: a server answering 404 immediately is accepted on the
first attempt with the default 3 retries. -/
theorem c1_retry_decision_witness :
    executeRetry (fun _ => .ok 404) 3 = ⟨.response 404, 1, []⟩ := by
  have h := c1_retry_decision.1 (fun _ => .ok 404) 3 0 404 (by omega)
    (fun i hi => absurd hi (by omega)) rfl (by decide)
  simpa using h

/-! ## C6: redirect policy -/

theorem clientDo_reject (server : Nat → RedirectStep) (maxR : Int) (h1 : 1 ≤ maxR)
    (hs : ∀ i, ∃ t, server i = .redirect t) :
    ∀ (fuel i : Nat), (i : Int) + 1 ≤ maxR → maxR.toNat ≤ i + 1 + fuel →
    clientDoAux server true maxR i fuel =
      (.checkErr ("stopped after " ++ toString maxR ++ " redirects"), maxR.toNat) := by
  intro fuel
  induction fuel with
  | zero =>
    intro i hi hf
    obtain ⟨t, ht⟩ := hs i
    simp only [clientDoAux, ht]
    rw [if_neg (by simp), if_pos (by omega)]
    exact Prod.ext rfl (by omega)
  | succ fuel ih =>
    intro i hi hf
    obtain ⟨t, ht⟩ := hs i
    by_cases hc : maxR ≤ (i : Int) + 1
    · simp only [clientDoAux, ht]
      rw [if_neg (by simp), if_pos hc]
      exact Prod.ext rfl (by omega)
    · simp only [clientDoAux, ht]
      rw [if_neg (by simp), if_neg hc]
      exact ih (i + 1) (by omega) (by omega)

/-- C6: with `FollowRedirects = false`, `client.Do` returns the 3xx
response itself with no error after a single request, and `Execute`'s
retry loop accepts that 3xx immediately as a normal response (clauses
1-2).  With following enabled, `MaxRedirects = 0` defaults to 10 and a
chain of redirects is cut off with the explicit
"stopped after N redirects" error once the hop count reaches the
configured maximum (clauses 3-4). -/
theorem c6_redirect_policy :
    (∀ (server : Nat → RedirectStep) (maxR : Int) (s : Nat), server 0 = .redirect s →
      clientDo server false maxR = (.resp s, 1))
    ∧ (∀ (s m : Nat), 300 ≤ s → s < 400 →
        executeRetry (fun _ => .ok s) m = ⟨.response s, 1, []⟩)
    ∧ effectiveMaxRedirects 0 = 10
    ∧ (∀ (server : Nat → RedirectStep) (maxR : Int), 1 ≤ maxR →
        (∀ i, ∃ t, server i = .redirect t) →
        clientDo server true maxR =
          (.checkErr ("stopped after " ++ toString maxR ++ " redirects"), maxR.toNat)) := by
  refine ⟨fun server maxR s hs => ?_, fun s m h3 h4 => ?_, rfl,
    fun server maxR h1 hs => ?_⟩
  · simp [clientDo, clientDoAux, hs]
  · have h5 : ¬(500 ≤ s) := by omega
    have hns : is5xx s = false := by simp [is5xx, h5]
    cases m with
    | zero => simp [executeRetry, retryLoopFrom]
    | succ m => simp [executeRetry, retryLoopFrom, hns]
  · exact clientDo_reject server maxR h1 hs (maxR.toNat + 1) 0 (by omega) (by omega)

/-- Witness for C6: an endless chain of 302s under the default bound stops
with the "stopped after 10 redirects" error after 10 requests, and a
single 302 with following disabled is returned as-is. -/
theorem c6_redirect_policy_witness :
    clientDo (fun _ => RedirectStep.redirect 302) true 10 =
      (.checkErr ("stopped after " ++ toString (10 : Int) ++ " redirects"), (10 : Int).toNat)
    ∧ clientDo (fun _ => RedirectStep.redirect 302) false 10 = (.resp 302, 1) :=
  ⟨c6_redirect_policy.2.2.2 (fun _ => RedirectStep.redirect 302) 10 (by decide)
      (fun _ => ⟨302, rfl⟩),
   c6_redirect_policy.1 (fun _ => RedirectStep.redirect 302) 10 302 rfl⟩

/-! ## C2: token cache behaviour -/

theorem getCached_some_inv (cache : TokenCache) (now : Int) (s t : String)
    (h : getCached cache now s = some t) :
    ∃ tok, List.lookup s cache = some tok ∧ now + tokenExpirySkew < tok.expiresOn ∧
      tok.token = t := by
  unfold getCached at h
  split at h
  · exact absurd h (by simp)
  · next tok heq =>
    split at h
    · exact absurd h (by simp)
    · split at h
      · next hexp => exact ⟨tok, heq, hexp, by simpa using h⟩
      · exact absurd h (by simp)

/-- C2: for a `GetToken` call with a non-blank scope, assuming every cache
entry is well-formed (non-empty token, non-zero expiry — the invariant
`setCached` maintains) and the credential chain hands back a well-formed
token on success: the cached token is returned with no credential-chain
invocation exactly when the cache holds an entry for the (trimmed) scope
whose expiry is strictly later than `now` plus the 2-minute skew
(clauses 1-2); otherwise the chain is invoked exactly once and, on
success, its result is stored overwriting any previous entry for that
scope and its token is returned (clause 3). -/
theorem c2_token_cache (cache : TokenCache) (now : Int) (scope : String)
    (cred : Except String AccessToken)
    (hscope : goTrimSpace scope ≠ "")
    (hwf : ∀ p ∈ cache, p.2.token ≠ "" ∧ p.2.expiresOn ≠ 0)
    (hcred : ∀ acc, cred = .ok acc → acc.token ≠ "" ∧ acc.expiresOn ≠ 0) :
    ((getToken cache now scope cred).credCalls = 0 ↔
      ∃ tok, List.lookup (goTrimSpace scope) cache = some tok ∧
        now + tokenExpirySkew < tok.expiresOn)
    ∧ (∀ tok, List.lookup (goTrimSpace scope) cache = some tok →
        now + tokenExpirySkew < tok.expiresOn →
        getToken cache now scope cred = ⟨.ok tok.token, cache, 0⟩)
    ∧ (getCached cache now (goTrimSpace scope) = none →
        (getToken cache now scope cred).credCalls = 1
        ∧ (∀ acc, cred = .ok acc →
            getToken cache now scope cred =
              ⟨.ok acc.token, cacheInsert cache (goTrimSpace scope) acc, 1⟩
            ∧ List.lookup (goTrimSpace scope)
                (getToken cache now scope cred).cache = some acc)
        ∧ (∀ e, cred = .error e →
            getToken cache now scope cred =
              ⟨.error (classifyAuthError (goTrimSpace scope) e), cache, 1⟩)) := by
  have hgc : ∀ tok, List.lookup (goTrimSpace scope) cache = some tok →
      now + tokenExpirySkew < tok.expiresOn →
      getCached cache now (goTrimSpace scope) = some tok.token := by
    intro tok hl hexp
    obtain ⟨ht, he⟩ := hwf _ (mem_of_lookup_eq_some _ cache hl)
    simp [getCached, hl, ht, he, hexp]
  refine ⟨?_, fun tok hl hexp => ?_, fun hmiss => ?_⟩
  · constructor
    · intro h0
      cases hc : getCached cache now (goTrimSpace scope) with
      | none =>
        exfalso
        cases cred with
        | ok acc => simp [getToken, hscope, hc] at h0
        | error e => simp [getToken, hscope, hc] at h0
      | some t =>
        obtain ⟨tok, hl, hexp, _⟩ := getCached_some_inv cache now (goTrimSpace scope) t hc
        exact ⟨tok, hl, hexp⟩
    · rintro ⟨tok, hl, hexp⟩
      simp [getToken, hscope, hgc tok hl hexp]
  · simp [getToken, hscope, hgc tok hl hexp]
  · refine ⟨?_, fun acc hacc => ?_, fun e he => ?_⟩
    · cases cred with
      | ok acc => simp [getToken, hscope, hmiss]
      | error e => simp [getToken, hscope, hmiss]
    · obtain ⟨ht, he⟩ := hcred acc hacc
      have hset : setCached cache (goTrimSpace scope) acc =
          cacheInsert cache (goTrimSpace scope) acc := by
        simp [setCached, ht, he]
      refine ⟨by simp [getToken, hscope, hmiss, hacc, hset], ?_⟩
      simp [getToken, hscope, hmiss, hacc, hset, cacheInsert, List.lookup]
    · simp [getToken, hscope, hmiss, he]

/-- Witness for C2: a fresh entry expiring at 1000 is served from the
cache at `now = 0` with no credential call; after `getCached` misses on an
empty cache the chain runs once and its token is stored and returned. -/
theorem c2_token_cache_witness :
    getToken [("s", ⟨"tok", 1000⟩)] 0 "s" (.error "x") = ⟨.ok "tok", [("s", ⟨"tok", 1000⟩)], 0⟩
    ∧ getToken [] 0 "s" (.ok ⟨"fresh", 500⟩) = ⟨.ok "fresh", cacheInsert [] "s" ⟨"fresh", 500⟩, 1⟩ :=
  ⟨(c2_token_cache [("s", ⟨"tok", 1000⟩)] 0 "s" (.error "x") (by decide) (by decide)
      (fun acc h => nomatch h)).2.1 ⟨"tok", 1000⟩ (by decide) (by decide),
   ((c2_token_cache [] 0 "s" (.ok ⟨"fresh", 500⟩) (by decide) (by simp)
      (fun acc h => by cases h; exact ⟨by decide, by decide⟩)).2.2 (by decide)).2.1
      ⟨"fresh", 500⟩ rfl |>.1⟩

/-! ## C7: request-body buffering for retries (code bug)

`Execute` creates the `http.Request` from `opts.Body` (line 415) before
the buffering block (lines 469-487) reads that same reader to build the
retry buffer.  For any body within the 10MB bound and `opts.Retry > 0`,
the buffering read consumes the reader wrapped by `req.Body`, so the
first attempt delivers 0 bytes while the retries deliver the full
buffered body — the attempts do not send identical bodies. -/

/-- C7 (failing input): a 5-byte non-seekable body with `Retry = 1`.  The
first attempt delivers 0 bytes and each retry delivers all 5 — not the
identical replay the spec describes.  With `Retry = 0` (defaulted to 3
retries) the same body is never buffered at all: the first attempt sends
5 bytes and retries send 0. -/
theorem c7_body_buffering_bug :
    (∃ bb, bodyBehavior (some ⟨5, false⟩) 1 = some bb
      ∧ bb.firstSent = 0 ∧ bb.retrySent = 5 ∧ bb.firstSent ≠ bb.retrySent)
    ∧ (∃ bb, bodyBehavior (some ⟨5, false⟩) 0 = some bb
      ∧ bb.firstSent = 5 ∧ bb.retrySent = 0) :=
  ⟨⟨⟨0, 5⟩, by decide, rfl, rfl, by decide⟩, ⟨⟨5, 0⟩, by decide, rfl, rfl⟩⟩

/-! ## C4: Authorization-header redaction -/

theorem strData_append (a b : String) : (a ++ b).data = a.data ++ b.data := by
  cases a
  cases b
  rfl

theorem goToLower_append (a b : String) :
    goToLower (a ++ b) = goToLower a ++ goToLower b := by
  cases a with
  | mk la =>
    cases b with
    | mk lb =>
      show String.mk (List.map Char.toLower (la ++ lb)) = _
      exact congrArg String.mk (List.map_append Char.toLower la lb)

theorem goStartsWith_append_self (a b : String) : goStartsWith (a ++ b) a = true := by
  unfold goStartsWith
  rw [strData_append]
  exact begWith_append_self a.data b.data

theorem goDropLeading_append (a b : String) : goDropLeading (a ++ b) a = b := by
  unfold goDropLeading
  rw [if_pos (goStartsWith_append_self a b)]
  unfold goDrop goLen
  rw [strData_append, List.drop_left]

theorem goDropLeading_of_not (s pre : String) (h : goStartsWith s pre = false) :
    goDropLeading s pre = s := by
  simp [goDropLeading, h]

theorem goStartsWith_bearer_cap (t : String) :
    goStartsWith ("bearer " ++ t) "Bearer " = false := by
  cases t with
  | mk td =>
    show begWith ('B' :: 'e' :: 'a' :: 'r' :: 'e' :: 'r' :: ' ' :: [])
      ('b' :: 'e' :: 'a' :: 'r' :: 'e' :: 'r' :: ' ' :: td) = false
    rw [begWith, show ('B' == 'b') = false from rfl, Bool.false_and]

/-- C4 (counterexample): the claim fails for the mixed-case scheme
`BEARER `.  For `"BEARER abcdef"` the token after the scheme is `abcdef`
(6 ≤ threshold 12), so the claim requires the fixed marker
`Bearer ***REDACTED***`; but `strings.TrimPrefix` only strips the exact
spellings `Bearer ` / `bearer `, so the length test and the slicing run
on the whole value — the output is `Bearer BEARER...abcdef`, which both
differs from the marker and contains the full raw token `abcdef`. -/
theorem c4_redaction_counterexample :
    RedactSensitiveHeader "Authorization" "BEARER abcdef" = "Bearer BEARER...abcdef"
    ∧ goStartsWith (goToLower "BEARER abcdef") "bearer " = true
    ∧ RedactSensitiveHeader "Authorization" "BEARER abcdef" ≠ "Bearer ***REDACTED***"
    ∧ goContains (RedactSensitiveHeader "Authorization" "BEARER abcdef") "abcdef" = true := by
  refine ⟨by decide, by decide, by decide, by decide⟩

/-- C4 (amended): the code strips one exact leading `Bearer ` and then one
exact leading `bearer ` before applying the first-6/last-6-or-marker rule
to whatever remains.  Exhaustively: for an exact `Bearer ` scheme whose
token does not itself start with `bearer `, the rule applies to the token
(clause 1); for an exact `Bearer ` scheme whose token starts with
`bearer `, the second strip also removes that word, so the rule applies to
the remainder after both strips — not to the token (clause 2); for an
exact lowercase `bearer ` scheme, the rule applies to the token, which is
never stripped twice (clause 3); any other casing passes the
case-insensitive bearer test but is left untrimmed, so the rule applies
to the entire value, scheme included (clause 4); a non-bearer
Authorization value is fully redacted (clause 5).  In every case the
output is built only from fixed marker text and the first 6 and last 6
characters of the doubly-trimmed string, so at most 12 of its characters
are ever revealed. -/
theorem c4_redaction_amended :
    (∀ t : String, goStartsWith t "bearer " = false →
      RedactSensitiveHeader "Authorization" ("Bearer " ++ t) =
        if 12 < goLen t then "Bearer " ++ goTake t 6 ++ "..." ++ goTakeLast t 6
        else "Bearer ***REDACTED***")
    ∧ (∀ u : String,
      RedactSensitiveHeader "Authorization" ("Bearer " ++ ("bearer " ++ u)) =
        if 12 < goLen u then "Bearer " ++ goTake u 6 ++ "..." ++ goTakeLast u 6
        else "Bearer ***REDACTED***")
    ∧ (∀ t : String,
      RedactSensitiveHeader "Authorization" ("bearer " ++ t) =
        if 12 < goLen t then "Bearer " ++ goTake t 6 ++ "..." ++ goTakeLast t 6
        else "Bearer ***REDACTED***")
    ∧ (∀ v : String, goStartsWith (goToLower v) "bearer " = true →
      goStartsWith v "Bearer " = false → goStartsWith v "bearer " = false →
      RedactSensitiveHeader "Authorization" v =
        if 12 < goLen v then "Bearer " ++ goTake v 6 ++ "..." ++ goTakeLast v 6
        else "Bearer ***REDACTED***")
    ∧ (∀ v : String, goStartsWith (goToLower v) "bearer " = false →
      RedactSensitiveHeader "Authorization" v = "***REDACTED***") := by
  have hkey : goToLower "Authorization" = "authorization" := by decide
  refine ⟨fun t hb => ?_, fun u => ?_, fun t => ?_, fun v h1 h2 h3 => ?_, fun v h => ?_⟩
  · simp only [RedactSensitiveHeader]
    rw [if_pos hkey, goToLower_append, show goToLower "Bearer " = "bearer " from by decide,
      if_pos (goStartsWith_append_self "bearer " (goToLower t)),
      goDropLeading_append "Bearer " t, goDropLeading_of_not t "bearer " hb]
  · simp only [RedactSensitiveHeader]
    rw [if_pos hkey, goToLower_append, show goToLower "Bearer " = "bearer " from by decide,
      if_pos (goStartsWith_append_self "bearer " (goToLower ("bearer " ++ u))),
      goDropLeading_append "Bearer " ("bearer " ++ u), goDropLeading_append "bearer " u]
  · simp only [RedactSensitiveHeader]
    rw [if_pos hkey, goToLower_append, show goToLower "bearer " = "bearer " from by decide,
      if_pos (goStartsWith_append_self "bearer " (goToLower t)),
      goDropLeading_of_not _ _ (goStartsWith_bearer_cap t),
      goDropLeading_append "bearer " t]
  · simp only [RedactSensitiveHeader]
    rw [if_pos hkey, if_pos h1, goDropLeading_of_not v "Bearer " h2,
      goDropLeading_of_not v "bearer " h3]
  · simp only [RedactSensitiveHeader]
    rw [if_pos hkey, if_neg (by simp [h])]

/-- Witness for C4 (amended): an exactly-spelled `Bearer ` value with a
16-character token is redacted to its first and last 6 characters, and a
`Bearer bearer secret123456` value is doubly stripped to the 12-character
`secret123456`, which is below the threshold and becomes the marker. -/
theorem c4_redaction_amended_witness :
    (RedactSensitiveHeader "Authorization" ("Bearer " ++ "0123456789abcdef") =
      if 12 < goLen "0123456789abcdef" then
        "Bearer " ++ goTake "0123456789abcdef" 6 ++ "..." ++ goTakeLast "0123456789abcdef" 6
      else "Bearer ***REDACTED***")
    ∧ (RedactSensitiveHeader "Authorization" ("Bearer " ++ ("bearer " ++ "secret123456")) =
      if 12 < goLen "secret123456" then
        "Bearer " ++ goTake "secret123456" 6 ++ "..." ++ goTakeLast "secret123456" 6
      else "Bearer ***REDACTED***") :=
  ⟨c4_redaction_amended.1 "0123456789abcdef" (by decide),
   c4_redaction_amended.2.1 "secret123456"⟩

/-! ## C3 and C9: pagination aggregation -/

theorem pagLoop_empty_url (doReq : String → Option PageResponse)
    (resolve : String → String → String) (opts : PagOpts) :
    ∀ (fuel : Nat) (acc : List Json), pagLoop doReq resolve opts fuel "" acc = acc := by
  intro fuel acc
  cases fuel with
  | zero => rfl
  | succ fuel => simp [pagLoop]

theorem pagLoop_step_fetch (doReq : String → Option PageResponse)
    (resolve : String → String → String) (opts : PagOpts) (fuel : Nat)
    (url : String) (acc : List Json) (page : PageResponse)
    (pageData : List (String × Json)) (items : List Json)
    (hurl : url ≠ "") (hauth : pagAuthBreaks opts = false)
    (hreq : doReq (resolve opts.url url) = some page)
    (hparse : (readLimited page.body opts.maxResponseSize).parsed = some pageData)
    (hval : pageValueArray pageData = some items) :
    pagLoop doReq resolve opts (fuel + 1) url acc =
      pagLoop doReq resolve opts fuel (nextURLOf pageData page.linkNext) (acc ++ items) := by
  simp only [pagLoop, if_neg hurl, hauth, Bool.false_eq_true, if_false, hreq, hparse, hval]

theorem pagLoop_step_break (doReq : String → Option PageResponse)
    (resolve : String → String → String) (opts : PagOpts) (fuel : Nat)
    (url : String) (acc : List Json)
    (hurl : url ≠ "") (hauth : pagAuthBreaks opts = false)
    (hbody : ∀ page, doReq (resolve opts.url url) = some page →
      (readLimited page.body opts.maxResponseSize).parsed = none) :
    pagLoop doReq resolve opts (fuel + 1) url acc = acc := by
  simp only [pagLoop, if_neg hurl, hauth, Bool.false_eq_true, if_false]
  cases hd : doReq (resolve opts.url url) with
  | none => rfl
  | some page => simp only [hbody page hd]

theorem combineResults_fields (firstData : List (String × Json)) (xs : List Json) :
    List.lookup "value" (combineResults firstData xs) = some (Json.arr xs)
    ∧ List.lookup "nextLink" (combineResults firstData xs) = none
    ∧ List.lookup "@odata.nextLink" (combineResults firstData xs) = none
    ∧ List.lookup "@odata.next" (combineResults firstData xs) = none := by
  refine ⟨?_, ?_, ?_, ?_⟩
  · simp only [combineResults, List.lookup,
      show ("value" == "value") = true from rfl]
  · simp only [combineResults, List.lookup,
      show ("nextLink" == "value") = false from rfl]
    exact lookup_filter_key_none "nextLink" _ (fun v => rfl) firstData
  · simp only [combineResults, List.lookup,
      show ("@odata.nextLink" == "value") = false from rfl]
    exact lookup_filter_key_none "@odata.nextLink" _ (fun v => rfl) firstData
  · simp only [combineResults, List.lookup,
      show ("@odata.next" == "value") = false from rfl]
    exact lookup_filter_key_none "@odata.next" _ (fun v => rfl) firstData

/-- C3 (counterexample): two pages whose `value` arrays are both empty.
The first page carries a `nextLink` to a second page with no further
link, exactly the claim's scenario, but zero items are accumulated, so
`handlePagination` returns the *original* first-page body — with its
`nextLink` field still present — instead of a merged body with the
next-link keys deleted. -/
theorem c3_pagination_counterexample :
    handlePagination
        (fun _ => some ⟨⟨10, some [("value", Json.arr [])]⟩, none⟩)
        (fun _ n => n)
        ⟨"u", true, "", false, none, 100⟩
        ⟨⟨30, some [("nextLink", Json.str "n"), ("value", Json.arr [])]⟩, none⟩
      = .original ⟨30, some [("nextLink", Json.str "n"), ("value", Json.arr [])]⟩
    ∧ List.lookup "nextLink" [("nextLink", Json.str "n"), ("value", Json.arr [])] =
        some (Json.str "n") :=
  ⟨rfl, rfl⟩

/-- C3 (amended): in the claim's scenario — pagination enabled, first page
with a `value` array and a `nextLink` to a second page that parses within
the configured positive `MaxResponseSize` and carries no further link,
per-page auth not failing — *provided at least one item is accumulated*,
the merged body's `value` array is the first page's items followed by the
second page's items and the merged body contains none of the keys
`nextLink`, `@odata.nextLink`, `@odata.next`.  (When both pages' arrays
are empty the original body is returned unchanged, next-link keys
intact — see the counterexample.) -/
theorem c3_pagination_merge_amended
    (doReq : String → Option PageResponse) (resolve : String → String → String)
    (opts : PagOpts) (len1 len2 : Nat) (firstLink p2Link : Option String)
    (firstData page2 : List (String × Json)) (items1 items2 : List Json) (u1 : String)
    (h1v : List.lookup "value" firstData = some (Json.arr items1))
    (h1n : List.lookup "nextLink" firstData = some (Json.str u1)) (hu1 : u1 ≠ "")
    (hauth : pagAuthBreaks opts = false)
    (hreq : doReq (resolve opts.url u1) = some ⟨⟨len2, some page2⟩, p2Link⟩)
    (hpos : 0 < opts.maxResponseSize) (hfits : (len2 : Int) ≤ opts.maxResponseSize)
    (h2v : List.lookup "value" page2 = some (Json.arr items2))
    (h2n : extractNextLinkFromData page2 = none) (h2l : p2Link = none)
    (hne : items1 ++ items2 ≠ []) :
    handlePagination doReq resolve opts ⟨⟨len1, some firstData⟩, firstLink⟩ =
      .combined (combineResults firstData (items1 ++ items2))
    ∧ List.lookup "value" (combineResults firstData (items1 ++ items2)) =
        some (Json.arr (items1 ++ items2))
    ∧ (items1 ++ items2).length = items1.length + items2.length
    ∧ List.lookup "nextLink" (combineResults firstData (items1 ++ items2)) = none
    ∧ List.lookup "@odata.nextLink" (combineResults firstData (items1 ++ items2)) = none
    ∧ List.lookup "@odata.next" (combineResults firstData (items1 ++ items2)) = none := by
  have hext1 : extractNextLinkFromData firstData = some u1 := by
    simp [extractNextLinkFromData, lookupNonEmptyStr, h1n, hu1]
  have hpv1 : pageValueArray firstData = some items1 := by
    simp [pageValueArray, h1v]
  have hpv2 : pageValueArray page2 = some items2 := by
    simp [pageValueArray, h2v]
  have hrl : readLimited ⟨len2, some page2⟩ opts.maxResponseSize = ⟨len2, some page2⟩ := by
    simp only [readLimited]
    rw [if_neg (by omega), if_pos (by exact_mod_cast hfits)]
  have hn2 : nextURLOf page2 p2Link = "" := by
    simp [nextURLOf, h2n, h2l]
  have hloop : pagLoop doReq resolve opts maxPages u1 items1 = items1 ++ items2 := by
    rw [show maxPages = 999 + 1 from rfl,
      pagLoop_step_fetch doReq resolve opts 999 u1 items1 ⟨⟨len2, some page2⟩, p2Link⟩
        page2 items2 hu1 hauth hreq (by rw [hrl]) hpv2]
    rw [show (⟨⟨len2, some page2⟩, p2Link⟩ : PageResponse).linkNext = p2Link from rfl, hn2]
    exact pagLoop_empty_url doReq resolve opts 999 (items1 ++ items2)
  have hcomb := combineResults_fields firstData (items1 ++ items2)
  refine ⟨?_, hcomb.1, by simp, hcomb.2.1, hcomb.2.2.1, hcomb.2.2.2⟩
  simp only [handlePagination, hpv1, hext1, nextURLOf, hloop]
  rw [if_neg (by simp [hne])]

/-- Witness for C3 (amended) at a concrete two-page sequence: one item on
each page merges to both items in page order with all next-link keys
stripped. -/
theorem c3_pagination_merge_amended_witness :
    handlePagination
        (fun _ => some ⟨⟨20, some [("value", Json.arr [Json.num 2])]⟩, none⟩)
        (fun _ n => n)
        ⟨"u", true, "", false, none, 100⟩
        ⟨⟨30, some [("nextLink", Json.str "n"), ("value", Json.arr [Json.num 1])]⟩, none⟩
      = .combined (combineResults
          [("nextLink", Json.str "n"), ("value", Json.arr [Json.num 1])]
          ([Json.num 1] ++ [Json.num 2]))
    ∧ List.lookup "nextLink" (combineResults
          [("nextLink", Json.str "n"), ("value", Json.arr [Json.num 1])]
          ([Json.num 1] ++ [Json.num 2])) = none :=
  have h := c3_pagination_merge_amended
    (fun _ => some ⟨⟨20, some [("value", Json.arr [Json.num 2])]⟩, none⟩)
    (fun _ n => n)
    ⟨"u", true, "", false, none, 100⟩ 30 20 none none
    [("nextLink", Json.str "n"), ("value", Json.arr [Json.num 1])]
    [("value", Json.arr [Json.num 2])]
    [Json.num 1] [Json.num 2] "n"
    rfl rfl (by decide) rfl rfl (by decide) (by decide) rfl rfl rfl (by simp)
  ⟨h.1, h.2.2.2.1⟩

/-- C9: when `MaxResponseSize` is unset (non-positive), `Execute` reads
the first response under the locally-defaulted 100MB cap, but
`handlePagination`'s per-page `io.LimitReader` uses the raw value, so
every followed page delivers a zero-byte body whose JSON parse fails;
aggregation silently stops after the first page — for any page the
server returns — while the synthesized combined output still strips the
three next-link keys. -/
theorem c9_raw_limit_in_pagination (m : Int) (hm : m ≤ 0) :
    effectiveMaxSize m = 104857600
    ∧ (∀ b : Bytes, readLimited b m = ⟨0, none⟩)
    ∧ (∀ (doReq : String → Option PageResponse) (resolve : String → String → String)
        (opts : PagOpts) (len1 : Nat) (firstLink : Option String)
        (firstData : List (String × Json)) (items1 : List Json) (u1 : String),
        opts.maxResponseSize = m → pagAuthBreaks opts = false →
        List.lookup "value" firstData = some (Json.arr items1) →
        List.lookup "nextLink" firstData = some (Json.str u1) → u1 ≠ "" →
        items1 ≠ [] →
        handlePagination doReq resolve opts ⟨⟨len1, some firstData⟩, firstLink⟩ =
          .combined (combineResults firstData items1)
        ∧ List.lookup "nextLink" (combineResults firstData items1) = none
        ∧ List.lookup "@odata.nextLink" (combineResults firstData items1) = none
        ∧ List.lookup "@odata.next" (combineResults firstData items1) = none) := by
  have hrl : ∀ b : Bytes, readLimited b m = ⟨0, none⟩ := by
    intro b
    simp only [readLimited]
    rw [if_pos hm]
  refine ⟨by simp [effectiveMaxSize, hm], hrl, ?_⟩
  intro doReq resolve opts len1 firstLink firstData items1 u1 hms hauth h1v h1n hu1 hne
  have hext1 : extractNextLinkFromData firstData = some u1 := by
    simp [extractNextLinkFromData, lookupNonEmptyStr, h1n, hu1]
  have hpv1 : pageValueArray firstData = some items1 := by
    simp [pageValueArray, h1v]
  have hloop : pagLoop doReq resolve opts maxPages u1 items1 = items1 := by
    rw [show maxPages = 999 + 1 from rfl]
    exact pagLoop_step_break doReq resolve opts 999 u1 items1 hu1 hauth
      (fun page _ => by rw [hms, hrl page.body])
  have hcomb := combineResults_fields firstData items1
  refine ⟨?_, hcomb.2.1, hcomb.2.2.1, hcomb.2.2.2⟩
  simp only [handlePagination, hpv1, hext1, nextURLOf, hloop]
  rw [if_neg (by simp [hne])]

/-- Witness for C9: with `MaxResponseSize = 0` a second page holding one
item is dropped — the combined output keeps only the first page's item
and no `nextLink`. -/
theorem c9_raw_limit_in_pagination_witness :
    handlePagination
        (fun _ => some ⟨⟨20, some [("value", Json.arr [Json.num 2])]⟩, none⟩)
        (fun _ n => n)
        ⟨"u", true, "", false, none, 0⟩
        ⟨⟨30, some [("nextLink", Json.str "n"), ("value", Json.arr [Json.num 1])]⟩, none⟩
      = .combined (combineResults
          [("nextLink", Json.str "n"), ("value", Json.arr [Json.num 1])] [Json.num 1])
    ∧ effectiveMaxSize 0 = 104857600 :=
  have h := (c9_raw_limit_in_pagination 0 (by decide)).2.2
    (fun _ => some ⟨⟨20, some [("value", Json.arr [Json.num 2])]⟩, none⟩)
    (fun _ n => n)
    ⟨"u", true, "", false, none, 0⟩ 30 none
    [("nextLink", Json.str "n"), ("value", Json.arr [Json.num 1])]
    [Json.num 1] "n" rfl rfl rfl rfl (by decide) (by simp)
  ⟨h.1, (c9_raw_limit_in_pagination 0 (by decide)).1⟩

end AzdRest
